import Mathlib

/-!
Verification of the sdreader2mastodon event pipeline (`sdreader2mastodon/app.py`).

The development shallowly embeds the program's pure core:

* Python strings are Lean `String`s; the string methods the code uses
  (`str.strip`, `str.lower`, `str.split('/')`, `'/'.join`) are given explicit
  structural definitions (`pyStrip`, `pyLower`, `pySplitSlash`, `joinSlash`)
  that mirror the CPython semantics on the ASCII inputs the program handles.
* `urllib.parse` URLs are modelled in parsed form: a `Url` is its
  scheme/netloc/path/query split (the `params` and `fragment` components never
  occur in this program's data and are omitted).  `urljoin` and `urlunparse`
  below transcribe the branch structure of CPython's `urllib.parse.urljoin`
  and `urlunsplit` for such four-component URLs, assuming the schemes in play
  (http/https) belong to `uses_relative` and `uses_netloc`, which they do.
* The HTML soup is modelled at the level `get_events` consumes it: a document
  is a list of date blocks, each with an optional h2 heading text and a list
  of event items; an item carries the optional pieces `make_event` queries
  (title anchor text+href, place text, time text) plus its category label
  texts.  A missing required piece makes the corresponding Python attribute
  or key access raise; this is modelled by `Except`.
* `random.choice` over the date blocks is modelled by an arbitrary index
  `pick` (used modulo the number of blocks), and `random.shuffle` by
  quantifying theorems over every input ordering of the event list.
* The network call in `post` is external; its success or failure is modelled
  by an oracle `ok : Event → Bool` supplied to the publish loop.
  `post` raising (`raise_for_status`) propagates out of `main`, which the
  run model `pubLoop` records in its `saved` flag (`set_cache` reached or not).
-/

/-! ## Python string primitives -/

/-- Python `str.split('/')` at the character-list level.  As in Python,
`"".split('/') == [""]` and separators at the ends produce empty pieces. -/
def splitOnSlash : List Char → List (List Char)
  | [] => [[]]
  | c :: cs =>
    let r := splitOnSlash cs
    if c = '/' then [] :: r
    else
      match r with
      | [] => [[c]]
      | h :: t => (c :: h) :: t

/-- Python `'/'.join` at the character-list level. -/
def joinSlashCh : List (List Char) → List Char
  | [] => []
  | [p] => p
  | p :: ps => p ++ '/' :: joinSlashCh ps

/-- Python `str.split('/')`. -/
def pySplitSlash (s : String) : List String :=
  (splitOnSlash s.data).map (fun cs => ⟨cs⟩)

/-- Python `'/'.join(parts)`. -/
def joinSlash (parts : List String) : String :=
  ⟨joinSlashCh (parts.map String.data)⟩

/-- Python `str.strip()`: drop leading and trailing whitespace. -/
def pyStrip (s : String) : String :=
  ⟨(((s.data.dropWhile Char.isWhitespace).reverse).dropWhile Char.isWhitespace).reverse⟩

/-- Python `str.lower()` (ASCII case mapping, as in the program's inputs). -/
def pyLower (s : String) : String := ⟨s.data.map Char.toLower⟩

/-- Python `path[:1] == '/'`. -/
def startsSlash (s : String) : Bool :=
  match s.data with
  | c :: _ => c = '/'
  | [] => false

/-- Python `url[:2] == '//'` (used by `urlunsplit`). -/
def startsDoubleSlash (s : String) : Bool :=
  match s.data with
  | c :: d :: _ => c = '/' ∧ d = '/'
  | _ => false

theorem splitOnSlash_ne_nil (cs : List Char) : splitOnSlash cs ≠ [] := by
  induction cs with
  | nil => simp [splitOnSlash]
  | cons c cs ih =>
    simp only [splitOnSlash]
    split
    · simp
    · cases h : splitOnSlash cs with
      | nil => exact absurd h ih
      | cons hd tl => simp [h]

theorem joinSlashCh_splitOnSlash (cs : List Char) :
    joinSlashCh (splitOnSlash cs) = cs := by
  induction cs with
  | nil => rfl
  | cons c cs ih =>
    simp only [splitOnSlash]
    by_cases hc : c = '/'
    · subst hc
      simp only [if_pos rfl]
      cases h : splitOnSlash cs with
      | nil => exact absurd h (splitOnSlash_ne_nil cs)
      | cons hd tl =>
        rw [h] at ih
        calc joinSlashCh ([] :: hd :: tl) = '/' :: joinSlashCh (hd :: tl) := rfl
          _ = '/' :: cs := by rw [ih]
    · rw [if_neg hc]
      cases h : splitOnSlash cs with
      | nil => exact absurd h (splitOnSlash_ne_nil cs)
      | cons hd tl =>
        rw [h] at ih
        cases tl with
        | nil => simpa [joinSlashCh] using congrArg (c :: ·) ih
        | cons t ts => simpa [joinSlashCh] using congrArg (c :: ·) ih

theorem joinSlash_pySplitSlash (s : String) : joinSlash (pySplitSlash s) = s := by
  have h : ∀ l : List (List Char),
      (l.map (fun cs => (⟨cs⟩ : String))).map String.data = l := by
    intro l
    induction l with
    | nil => rfl
    | cons hd t ih =>
      show hd :: (t.map _).map _ = hd :: t
      rw [ih]
  cases s with
  | mk data =>
    simp only [joinSlash, pySplitSlash]
    rw [h, joinSlashCh_splitOnSlash]

/-! ## urllib.parse model -/

/-- A URL in parsed form, as `urllib.parse.urlparse` splits it (the `params`
and `fragment` components never occur in this program's data and are
omitted).  A relative reference is a `Url` whose `scheme` and `netloc` are
empty. -/
structure Url where
  scheme : String
  netloc : String
  path : String
  query : String
deriving DecidableEq, Repr

/-- The parse of the empty string (Python's falsy URL). -/
def emptyUrl : Url := ⟨"", "", "", ""⟩

/-- The dot-segment resolution loop of CPython `urljoin`: pop on `..`, skip
`.`, append anything else; re-append a trailing empty segment when the last
segment was a relative dir; `'/'.join(resolved_path) or '/'`. -/
def resolveSegs (segments : List String) : String :=
  let resolved := segments.foldl
    (fun acc seg =>
      if seg = ".." then acc.dropLast
      else if seg = "." then acc
      else acc ++ [seg]) []
  let resolved :=
    if segments.getLast? = some "." ∨ segments.getLast? = some ".." then
      resolved ++ [""]
    else resolved
  let j := joinSlash resolved
  if j = "" then "/" else j

/-- CPython `urljoin`: `segments[1:-1] = filter(None, segments[1:-1])` — keep
the first and last entries, drop empty interior entries. -/
def filterInterior (l : List String) : List String :=
  match l with
  | [] => []
  | a :: rest =>
    match rest.getLast? with
    | none => [a]
    | some z => a :: ((rest.dropLast).filter (fun s => s ≠ "")) ++ [z]

/-- Python's `urljoin` returns a string, which `app.py` reparses with
`urlparse`.  `urlunsplit` prefixes a `/` to a relative path when a netloc is
present, so the reparse of the rendered URL carries that slash.  This models
the render-then-parse round trip on the four components. -/
def reparsed (u : Url) : Url :=
  if u.netloc ≠ "" ∧ u.path ≠ "" ∧ startsSlash u.path = false then
    { u with path := "/" ++ u.path }
  else u

/-- CPython `urllib.parse.urljoin` on four-component parsed URLs, transcribing
its branch structure (`if not base`, `if not url`, scheme defaulting, the
netloc branch, the empty-path branch that keeps the base path and possibly the
base query, the absolute-path branch, and the relative merge with interior
filtering and dot-segment resolution), composed with the string round trip
`reparsed` since the program passes `urljoin`'s string result back through
`urlparse`.  The schemes this program joins (http/https) are in CPython's
`uses_relative` and `uses_netloc` lists, which this transcription assumes. -/
def urljoin (base url : Url) : Url :=
  reparsed <|
  if base = emptyUrl then url
  else if url = emptyUrl then base
  else
    let scheme := if url.scheme = "" then base.scheme else url.scheme
    if scheme ≠ base.scheme then url
    else if url.netloc ≠ "" then { url with scheme := scheme }
    else if url.path = "" then
      { scheme := scheme, netloc := base.netloc, path := base.path,
        query := if url.query ≠ "" then url.query else base.query }
    else if startsSlash url.path then
      { scheme := scheme, netloc := base.netloc,
        path := resolveSegs (pySplitSlash url.path), query := url.query }
    else
      let baseParts := pySplitSlash base.path
      let baseParts :=
        if baseParts.getLast? ≠ some "" then baseParts.dropLast else baseParts
      let segments := filterInterior (baseParts ++ pySplitSlash url.path)
      { scheme := scheme, netloc := base.netloc,
        path := resolveSegs segments, query := url.query }

/-- CPython `urllib.parse.urlunsplit` restricted to the four components. -/
def urlunparse (u : Url) : String :=
  let p :=
    if u.netloc ≠ "" ∨ startsDoubleSlash u.path then
      "//" ++ u.netloc ++
        (if u.path ≠ "" ∧ startsSlash u.path = false then "/" ++ u.path else u.path)
    else u.path
  let p := if u.scheme ≠ "" then u.scheme ++ ":" ++ p else p
  if u.query ≠ "" then p ++ "?" ++ u.query else p

/-- The query-stripping step of `make_event` (app.py lines 92 to 96):
`urljoin(full_url, urlparse(full_url).path)`. -/
def cleanUrl (u : Url) : Url :=
  urljoin u { scheme := "", netloc := "", path := u.path, query := "" }

/-- The `modelCheck` theorems pin the model to concretely observed CPython
`urllib.parse` behavior and to hand-computed runs of the embedded functions;
they are regression checks on the embedding itself. -/
theorem modelCheck1 : urljoin ⟨"https", "x", "", ""⟩ ⟨"", "", "", "id=5"⟩ =
    ⟨"https", "x", "", "id=5"⟩ := by decide
theorem modelCheck2 : cleanUrl ⟨"https", "x", "", "id=5"⟩ = ⟨"https", "x", "", "id=5"⟩ := by decide
theorem modelCheck3 : urljoin ⟨"https", "x", "", ""⟩ ⟨"", "", "/e/1", "d=2026"⟩ =
    ⟨"https", "x", "/e/1", "d=2026"⟩ := by decide
theorem modelCheck4 : cleanUrl ⟨"https", "x", "/e/1", "d=2026"⟩ = ⟨"https", "x", "/e/1", ""⟩ := by decide
theorem modelCheck5 : urljoin ⟨"https", "x", "/base/page", ""⟩ ⟨"", "", "e/2", "q=1"⟩ =
    ⟨"https", "x", "/base/e/2", "q=1"⟩ := by decide
theorem modelCheck6 : urljoin ⟨"https", "x", "/a", ""⟩ ⟨"", "", "../c", ""⟩ =
    ⟨"https", "x", "/c", ""⟩ := by decide
theorem modelCheck7 : urljoin ⟨"https", "x", "/a/b", ""⟩ ⟨"", "", "./c", ""⟩ =
    ⟨"https", "x", "/a/c", ""⟩ := by decide
theorem modelCheck8 : urljoin ⟨"https", "x", "/a/b", "old=1"⟩ ⟨"", "", "", ""⟩ =
    ⟨"https", "x", "/a/b", "old=1"⟩ := by decide
theorem modelCheck9 : urljoin ⟨"https", "x", "", ""⟩ ⟨"http", "y", "/z", "q"⟩ =
    ⟨"http", "y", "/z", "q"⟩ := by decide
theorem modelCheck10 : urlunparse ⟨"https", "x", "", "id=5"⟩ = "https://x?id=5" := by decide
theorem modelCheck11 : urlunparse ⟨"https", "x", "/e/1", ""⟩ = "https://x/e/1" := by decide
theorem modelCheck12 : urlunparse ⟨"https", "x", "", ""⟩ = "https://x" := by decide

theorem modelCheck13 : urljoin ⟨"https", "x", "", ""⟩ ⟨"", "", "e/2", ""⟩ =
    ⟨"https", "x", "/e/2", ""⟩ := by decide
theorem modelCheck14 : urljoin ⟨"https", "x", "/a", ""⟩ ⟨"", "", "..", ""⟩ =
    ⟨"https", "x", "/", ""⟩ := by decide
theorem modelCheck15 : urljoin ⟨"https", "x", "/a/b", "z=1"⟩ ⟨"", "", "", "id=9"⟩ =
    ⟨"https", "x", "/a/b", "id=9"⟩ := by decide
theorem modelCheck16 : urljoin ⟨"https", "x", "", ""⟩ ⟨"", "y", "/p", "q=2"⟩ =
    ⟨"https", "y", "/p", "q=2"⟩ := by decide

/-! ## Data model (app.py dataclasses and the soup shape get_events reads) -/

/-- The `Event` dataclass (app.py lines 40 to 48).  `url` holds the rendered
canonical URL string, exactly what the Python code stores and later compares
against `cache.posts`. -/
structure Event where
  title : String
  url : String
  image_url : Option String := none
  location : Option String := none
  date : Option String := none
  time : Option String := none
  tags : List String := []
deriving DecidableEq, Repr

/-- One `div.event-item` as `make_event` queries it: the `a.event-title`
anchor (its text and parsed href), the `a.event-place` text, the
`div.event-time` text, and the `a.event-type` label texts.  A `none` field
models `el.find(...)` returning no element, on which the Python attribute or
key access raises. -/
structure EventItem where
  title : Option (String × Url) := none
  place : Option String := none
  time : Option String := none
  types : List String := []
deriving DecidableEq, Repr

/-- One `div.events-date` block: the `h2` heading text (if the block has
one) and its `div.event-item` children in document order. -/
structure DateBlock where
  heading : Option String := none
  items : List EventItem := []
deriving DecidableEq, Repr

/-- The fetched document, as `get_events` sees it: its `div.events-date`
blocks in document order. -/
structure Doc where
  blocks : List DateBlock
deriving DecidableEq, Repr

/-- The exceptions `get_events` can raise: `random.choice` on an empty list
(IndexError), `find('h2')` returning None (AttributeError on `get_text`), and
a missing required sub-element of an item (AttributeError / KeyError in
`make_event`). -/
inductive ParseErr where
  | noBlocks
  | noHeading
  | missingField
deriving DecidableEq, Repr

/-- A Python list comprehension whose body can raise: the first raise
propagates and discards the whole list. -/
def mapExcept (f : α → Except ε β) : List α → Except ε (List β)
  | [] => .ok []
  | a :: as =>
    match f a with
    | .error e => .error e
    | .ok b =>
      match mapExcept f as with
      | .error e => .error e
      | .ok bs => .ok (b :: bs)

/-- `make_event` (app.py lines 83 to 110).  `base` is
`settings.reader_base_url` in parsed form.  A missing title anchor, place or
time raises (modelled as `ParseErr.missingField`); otherwise the event is
built exactly as the code does: resolve the href against the base URL, strip
the query by re-joining the full URL with its own path, render the result,
and keep the trimmed lower-cased category labels other than `"music"`. -/
def make_event (base : Url) (el : EventItem) (date : String) : Except ParseErr Event :=
  match el.title, el.place, el.time with
  | some (ttext, href), some ptext, some tmtext =>
    let full_url := urljoin base href
    let cleaned_url := cleanUrl full_url
    .ok { title := pyStrip ttext,
          url := urlunparse cleaned_url,
          location := some (pyStrip ptext),
          date := some date,
          time := some (pyStrip tmtext),
          tags := (el.types.map (fun s => pyLower (pyStrip s))).filter
            (fun tag => tag ≠ "music") }
  | _, _, _ => .error .missingField

/-- `get_events` (app.py lines 73 to 112).  `pick` models the draw of
`random.choice` over the date blocks: the block at index `pick mod number of
blocks`; on an empty document `random.choice` raises IndexError. -/
def get_events (base : Url) (doc : Doc) (pick : Nat) : Except ParseErr (List Event) :=
  match doc.blocks[pick % doc.blocks.length]? with
  | none => .error .noBlocks
  | some events_block =>
    match events_block.heading with
    | none => .error .noHeading
    | some htext =>
      let date := pyStrip htext
      mapExcept (fun el => make_event base el date) events_block.items

/-! ## Cache model (get_cache / set_cache) -/

/-- JSON values, the shape `json.load` hands back. -/
inductive Json where
  | null
  | bool (b : Bool)
  | num (n : Int)
  | str (s : String)
  | arr (xs : List Json)
  | obj (fields : List (String × Json))

/-- The `Cache` dataclass (app.py lines 25 to 27).  The Python class does not
type-check its field, so `posts` holds whatever JSON value was loaded. -/
structure Cache where
  posts : Json

/-- What the cache file can present to `get_cache`: no file at
`settings.cache_filename` (FileNotFoundError), a file `json.load` cannot
decode (json.JSONDecodeError), or a decoded JSON value. -/
inductive CacheFile where
  | missing
  | badJson
  | parsed (j : Json)

/-- The exceptions that escape `get_cache`: only FileNotFoundError is caught
there, so a JSON decode error propagates, as does the TypeError that
`Cache(**kwargs)` raises when the object's keys are not exactly `posts`. -/
inductive LoadErr where
  | jsonDecodeError
  | typeError
deriving DecidableEq, Repr

/-- `get_cache` (app.py lines 138 to 143). -/
def get_cache : CacheFile → Except LoadErr Cache
  | .missing => .ok ⟨.arr []⟩
  | .badJson => .error .jsonDecodeError
  | .parsed j =>
    match j with
    | .obj [("posts", v)] => .ok ⟨v⟩
    | _ => .error .typeError

/-- The URL strings of a loaded `posts` value.  The publication loop in
`main` only ever asks whether an event's url string is `in cache.posts`, so a
list's non-string entries (which never equal a url string) are dropped; a
non-list `posts` value, on which Python's membership test itself raises
before any publish happens, yields `none`. -/
def postsList : Json → Option (List String)
  | .arr xs =>
    some (xs.filterMap (fun j => match j with | .str s => some s | _ => none))
  | _ => none

/-! ## The publication loop of main (app.py lines 171 to 184) -/

/-- The observable outcome of the loop of `main`: the events whose `post`
call succeeded in order, the final in-memory `cache.posts`, and whether
control reached `set_cache` (false exactly when a `post` raise aborted the
run before saving). -/
structure RunResult where
  published : List Event
  posts : List String
  saved : Bool
deriving DecidableEq, Repr

/-- The `for event in events` loop of `main` with counter `i`: stop once `i`
reaches the quota `n`; skip an event whose url is already in `cache.posts`;
otherwise increment `i`, attempt `post` (its success decided by the oracle
`ok`), and on success append the url to `cache.posts`.  A failing `post`
raises, so the loop aborts, nothing more is appended, and `set_cache` is
never reached. -/
def pubLoop (ok : Event → Bool) (n : Nat) : List Event → Nat → List String → RunResult
  | [], _, posts => ⟨[], posts, true⟩
  | e :: rest, i, posts =>
    if n ≤ i then ⟨[], posts, true⟩
    else if e.url ∈ posts then pubLoop ok n rest i posts
    else if ok e then
      let r := pubLoop ok n rest (i + 1) (posts ++ [e.url])
      ⟨e :: r.published, r.posts, r.saved⟩
    else ⟨[], posts, false⟩

/-- The loop of `main` started as the code starts it (`i = 0`), on an event
list already in its shuffled order. -/
def runMain (ok : Event → Bool) (n : Nat) (events : List Event) (posts : List String) :
    RunResult :=
  pubLoop ok n events 0 posts

/-- The number of distinct urls among `events` that are not in `posts`,
counted in the order the loop of `main` encounters them. -/
def distinctUnseen : List Event → List String → Nat
  | [], _ => 0
  | e :: rest, posts =>
    if e.url ∈ posts then distinctUnseen rest posts
    else distinctUnseen rest (posts ++ [e.url]) + 1

/-- How a whole invocation of `main` can end. -/
inductive RunOutcome where
  | fatalLoad
  | fatalParse
  | fatalBadPosts
  | finished (r : RunResult)

/-- The events a run published. -/
def RunOutcome.publishedEvents : RunOutcome → List Event
  | .finished r => r.published
  | _ => []

/-- `main` (app.py lines 160 to 185): load the cache, fetch and parse, then
publish.  An exception from `get_cache` or `get_events` propagates and ends
the run with nothing published and nothing saved.  `perm` is the ordering
`random.shuffle` chose; theorems quantify over it.  A loaded `posts` value
that is not a list (on which Python's first membership test raises before any
publish, whenever the loop body runs at all) ends the run as
`fatalBadPosts`. -/
def runAll (file : CacheFile) (doc : Doc) (pick : Nat) (perm : List Event → List Event)
    (ok : Event → Bool) (base : Url) (n : Nat) : RunOutcome :=
  match get_cache file with
  | .error _ => .fatalLoad
  | .ok c =>
    match get_events base doc pick with
    | .error _ => .fatalParse
    | .ok events =>
      match postsList c.posts with
      | none => .fatalBadPosts
      | some posts => .finished (pubLoop ok n (perm events) 0 posts)

/-! ## Concrete fixtures for counterexamples and witnesses -/

/-- A base URL `https://x`, the parsed `settings.reader_base_url` of the
examples. -/
def base0 : Url := ⟨"https", "x", "", ""⟩

/-- A parsed event with url `https://x/e/1`. -/
def evA : Event := { title := "A", url := "https://x/e/1" }

/-- A parsed event with url `https://x/e/2`. -/
def evB : Event := { title := "B", url := "https://x/e/2" }

/-- A well-formed event item whose link is `/e/1?d=2026`. -/
def itemOne : EventItem :=
  { title := some ("T1", ⟨"", "", "/e/1", "d=2026"⟩), place := some "P1",
    time := some "8pm", types := [] }

/-- A well-formed event item whose link is `/e/2`. -/
def itemTwo : EventItem :=
  { title := some ("T2", ⟨"", "", "/e/2", ""⟩), place := some "P2",
    time := some "9pm", types := [] }

/-- An event item lacking its `div.event-time` element. -/
def itemNoTime : EventItem :=
  { title := some ("T3", ⟨"", "", "/e/3", ""⟩), place := some "P3",
    time := none, types := [] }

/-- An event item whose link `?id=5` is a query-only relative reference, so
the resolved URL has an empty path. -/
def itemQueryOnly : EventItem :=
  { title := some ("TQ", ⟨"", "", "", "id=5"⟩), place := some "PQ",
    time := some "7pm", types := [] }

/-- A document with no `div.events-date` block at all. -/
def emptyDoc : Doc := ⟨[]⟩

/-- One date block holding five items of which the third lacks its time
field. -/
def blockFive : DateBlock :=
  { heading := some "March 3",
    items := [itemOne, itemTwo, itemNoTime,
      { title := some ("T4", ⟨"", "", "/e/4", ""⟩), place := some "P4",
        time := some "6pm", types := [] },
      { title := some ("T5", ⟨"", "", "/e/5", ""⟩), place := some "P5",
        time := some "5pm", types := [] }] }

/-- The document holding exactly `blockFive`. -/
def docFive : Doc := ⟨[blockFive]⟩

/-- A document with two date blocks listing different events. -/
def docTwoBlocks : Doc :=
  ⟨[{ heading := some "March 3", items := [itemOne] },
    { heading := some "March 4", items := [itemTwo] }]⟩

theorem modelCheck17 : get_events base0 docTwoBlocks 0 =
    .ok [{ title := "T1", url := "https://x/e/1", location := some "P1",
           date := some "March 3", time := some "8pm", tags := [] }] := rfl
theorem modelCheck18 : get_events base0 docTwoBlocks 1 =
    .ok [{ title := "T2", url := "https://x/e/2", location := some "P2",
           date := some "March 4", time := some "9pm", tags := [] }] := rfl
theorem modelCheck19 : get_events base0 docFive 0 = .error .missingField := rfl
theorem modelCheck20 : get_events base0 emptyDoc 7 = .error .noBlocks := rfl
theorem modelCheck21 : (make_event base0 itemQueryOnly "d").toOption.map Event.url =
    some "https://x?id=5" := by decide
theorem modelCheck22 : runMain (fun _ => true) 2 [evA, evA] [] =
    ⟨[evA], ["https://x/e/1"], true⟩ := by decide
theorem modelCheck23 : runMain (fun e => e.url == "https://x/e/2") 2 [evA, evB] [] =
    ⟨[], [], false⟩ := by decide

/-! ## Loop lemmas -/

theorem pubLoop_posts_eq (ok : Event → Bool) (n : Nat) :
    ∀ (evs : List Event) (i : Nat) (posts : List String),
      (pubLoop ok n evs i posts).posts =
        posts ++ ((pubLoop ok n evs i posts).published).map Event.url := by
  intro evs
  induction evs with
  | nil => intro i posts; simp [pubLoop]
  | cons e rest ih =>
    intro i posts
    by_cases h1 : n ≤ i
    · simp [pubLoop, h1]
    · by_cases h2 : e.url ∈ posts
      · simpa [pubLoop, h1, h2] using ih i posts
      · by_cases h3 : ok e = true
        · simp only [pubLoop, if_neg h1, if_neg h2, if_pos h3, List.map_cons]
          rw [ih (i + 1) (posts ++ [e.url])]
          simp
        · simp [pubLoop, h1, h2, h3]

theorem pubLoop_published_fresh (ok : Event → Bool) (n : Nat) :
    ∀ (evs : List Event) (i : Nat) (posts : List String) (u : String),
      u ∈ ((pubLoop ok n evs i posts).published).map Event.url → u ∉ posts := by
  intro evs
  induction evs with
  | nil => intro i posts u h; simp [pubLoop] at h
  | cons e rest ih =>
    intro i posts u h
    by_cases h1 : n ≤ i
    · simp [pubLoop, h1] at h
    · by_cases h2 : e.url ∈ posts
      · rw [pubLoop, if_neg h1, if_pos h2] at h
        exact ih i posts u h
      · by_cases h3 : ok e = true
        · rw [pubLoop, if_neg h1, if_neg h2, if_pos h3] at h
          simp only [List.map_cons, List.mem_cons] at h
          rcases h with h | h
          · rw [h]; exact h2
          · intro hmem
            exact ih (i + 1) (posts ++ [e.url]) u h
              (List.mem_append_left [e.url] hmem)
        · simp [pubLoop, h1, h2, h3] at h

theorem pubLoop_nodup (ok : Event → Bool) (n : Nat) :
    ∀ (evs : List Event) (i : Nat) (posts : List String),
      (((pubLoop ok n evs i posts).published).map Event.url).Nodup := by
  intro evs
  induction evs with
  | nil => intro i posts; simp [pubLoop]
  | cons e rest ih =>
    intro i posts
    by_cases h1 : n ≤ i
    · simp [pubLoop, h1]
    · by_cases h2 : e.url ∈ posts
      · rw [pubLoop, if_neg h1, if_pos h2]
        exact ih i posts
      · by_cases h3 : ok e = true
        · rw [pubLoop, if_neg h1, if_neg h2, if_pos h3]
          simp only [List.map_cons, List.nodup_cons]
          refine ⟨fun hmem => ?_, ih (i + 1) (posts ++ [e.url])⟩
          exact pubLoop_published_fresh ok n rest (i + 1) (posts ++ [e.url]) e.url hmem
            (List.mem_append_right posts (List.mem_singleton.mpr rfl))
        · simp [pubLoop, h1, h2, h3]

theorem pubLoop_length_le (ok : Event → Bool) (n : Nat) :
    ∀ (evs : List Event) (i : Nat) (posts : List String),
      (pubLoop ok n evs i posts).published.length ≤ n - i := by
  intro evs
  induction evs with
  | nil => intro i posts; simp [pubLoop]
  | cons e rest ih =>
    intro i posts
    by_cases h1 : n ≤ i
    · simp [pubLoop, h1]
    · by_cases h2 : e.url ∈ posts
      · rw [pubLoop, if_neg h1, if_pos h2]
        exact ih i posts
      · by_cases h3 : ok e = true
        · rw [pubLoop, if_neg h1, if_neg h2, if_pos h3]
          simp only [List.length_cons]
          have := ih (i + 1) (posts ++ [e.url])
          omega
        · simp [pubLoop, h1, h2, h3]

theorem pubLoop_true_length (n : Nat) :
    ∀ (evs : List Event) (i : Nat) (posts : List String),
      (pubLoop (fun _ => true) n evs i posts).published.length =
        min (n - i) (distinctUnseen evs posts) := by
  intro evs
  induction evs with
  | nil => intro i posts; simp [pubLoop, distinctUnseen]
  | cons e rest ih =>
    intro i posts
    by_cases h1 : n ≤ i
    · have : n - i = 0 := by omega
      simp [pubLoop, h1, this]
    · by_cases h2 : e.url ∈ posts
      · rw [pubLoop, if_neg h1, if_pos h2, distinctUnseen, if_pos h2]
        exact ih i posts
      · rw [pubLoop, if_neg h1, if_neg h2, if_pos rfl, distinctUnseen, if_neg h2]
        simp only [List.length_cons]
        have := ih (i + 1) (posts ++ [e.url])
        omega

theorem pubLoop_published_ok (ok : Event → Bool) (n : Nat) :
    ∀ (evs : List Event) (i : Nat) (posts : List String) (e : Event),
      e ∈ (pubLoop ok n evs i posts).published → ok e = true := by
  intro evs
  induction evs with
  | nil => intro i posts e h; simp [pubLoop] at h
  | cons a rest ih =>
    intro i posts e h
    by_cases h1 : n ≤ i
    · simp [pubLoop, h1] at h
    · by_cases h2 : a.url ∈ posts
      · rw [pubLoop, if_neg h1, if_pos h2] at h
        exact ih i posts e h
      · by_cases h3 : ok a = true
        · rw [pubLoop, if_neg h1, if_neg h2, if_pos h3] at h
          simp only [List.mem_cons] at h
          rcases h with h | h
          · rw [h]; exact h3
          · exact ih (i + 1) (posts ++ [a.url]) e h
        · simp [pubLoop, h1, h2, h3] at h

theorem pubLoop_saved_of_all_ok (ok : Event → Bool) (n : Nat) :
    ∀ (evs : List Event) (i : Nat) (posts : List String),
      (∀ e ∈ evs, ok e = true) → (pubLoop ok n evs i posts).saved = true := by
  intro evs
  induction evs with
  | nil => intro i posts _; simp [pubLoop]
  | cons e rest ih =>
    intro i posts hall
    by_cases h1 : n ≤ i
    · simp [pubLoop, h1]
    · by_cases h2 : e.url ∈ posts
      · rw [pubLoop, if_neg h1, if_pos h2]
        exact ih i posts (fun x hx => hall x (List.mem_cons_of_mem e hx))
      · have h3 : ok e = true := hall e (List.mem_cons_self e rest)
        rw [pubLoop, if_neg h1, if_neg h2, if_pos h3]
        exact ih (i + 1) (posts ++ [e.url])
          (fun x hx => hall x (List.mem_cons_of_mem e hx))

theorem pubLoop_fail_of_not_saved (ok : Event → Bool) (n : Nat) :
    ∀ (evs : List Event) (i : Nat) (posts : List String),
      (pubLoop ok n evs i posts).saved = false → ∃ e ∈ evs, ok e = false := by
  intro evs
  induction evs with
  | nil => intro i posts h; simp [pubLoop] at h
  | cons e rest ih =>
    intro i posts h
    by_cases h1 : n ≤ i
    · simp [pubLoop, h1] at h
    · by_cases h2 : e.url ∈ posts
      · rw [pubLoop, if_neg h1, if_pos h2] at h
        obtain ⟨x, hx, hox⟩ := ih i posts h
        exact ⟨x, List.mem_cons_of_mem e hx, hox⟩
      · by_cases h3 : ok e = true
        · rw [pubLoop, if_neg h1, if_neg h2, if_pos h3] at h
          obtain ⟨x, hx, hox⟩ := ih (i + 1) (posts ++ [e.url]) h
          exact ⟨x, List.mem_cons_of_mem e hx, hox⟩
        · exact ⟨e, List.mem_cons_self e rest, by simpa using h3⟩

theorem distinctUnseen_card :
    ∀ (evs : List Event) (posts : List String),
      distinctUnseen evs posts =
        ((evs.map Event.url).filter (fun u => decide (u ∉ posts))).toFinset.card := by
  intro evs
  induction evs with
  | nil => intro posts; simp [distinctUnseen]
  | cons e rest ih =>
    intro posts
    by_cases h2 : e.url ∈ posts
    · rw [distinctUnseen, if_pos h2]
      simp only [List.map_cons, List.filter_cons]
      rw [ih posts]
      simp [h2]
    · rw [distinctUnseen, if_neg h2]
      simp only [List.map_cons, List.filter_cons]
      have hd : decide (e.url ∉ posts) = true := by simpa using h2
      rw [hd]
      have hT : ((rest.map Event.url).filter
            (fun u => decide (u ∉ posts ++ [e.url]))).toFinset =
          (((rest.map Event.url).filter (fun u => decide (u ∉ posts))).toFinset).erase
            e.url := by
        ext x
        simp only [List.mem_toFinset, List.mem_filter, Finset.mem_erase,
          List.mem_append, List.mem_singleton, decide_eq_true_eq]
        constructor
        · rintro ⟨hx, hnx⟩
          exact ⟨fun hxe => hnx (Or.inr hxe), hx, fun hp => hnx (Or.inl hp)⟩
        · rintro ⟨hne, hx, hnp⟩
          exact ⟨hx, fun hor => hor.elim hnp hne⟩
      rw [ih (posts ++ [e.url]), hT, if_pos rfl]
      simp only [List.toFinset_cons]
      have hins : insert e.url
            (((rest.map Event.url).filter (fun u => decide (u ∉ posts))).toFinset) =
          insert e.url
            ((((rest.map Event.url).filter (fun u => decide (u ∉ posts))).toFinset).erase
              e.url) := by
        ext x
        by_cases hx : x = e.url <;> simp [hx]
      rw [hins, Finset.card_insert_of_not_mem (Finset.not_mem_erase _ _)]

/-! ## URL canonicalization lemmas -/

/-- The path `cleanUrl` computes for a URL with non-empty path `p` (before
the render round trip): its dot-normalized form, per the branch of `urljoin`
the second join takes. -/
def cleanPath (p : String) : String :=
  if startsSlash p then resolveSegs (pySplitSlash p)
  else
    let baseParts := pySplitSlash p
    let baseParts :=
      if baseParts.getLast? ≠ some "" then baseParts.dropLast else baseParts
    resolveSegs (filterInterior (baseParts ++ pySplitSlash p))

theorem pySplitSlash_ne_nil (s : String) : pySplitSlash s ≠ [] := by
  simp only [pySplitSlash, ne_eq, List.map_eq_nil_iff]
  exact splitOnSlash_ne_nil s.data

theorem startsSlash_ne_empty (s : String) (h : startsSlash s = true) : s ≠ "" := by
  intro he
  rw [he] at h
  simp [startsSlash] at h

theorem cleanUrl_eval (p : String) (hp : p ≠ "") (s n q : String) :
    cleanUrl ⟨s, n, p, q⟩ = reparsed ⟨s, n, cleanPath p, ""⟩ := by
  have hbase : ¬((⟨s, n, p, q⟩ : Url) = emptyUrl) := by
    intro h
    exact hp (congrArg Url.path h)
  have href : ¬((⟨"", "", p, ""⟩ : Url) = emptyUrl) := by
    intro h
    exact hp (congrArg Url.path h)
  simp only [cleanUrl, urljoin, cleanPath]
  rw [if_neg hbase, if_neg href]
  simp only [ne_eq, List.map_eq_nil_iff]
  simp [hp]
  split_ifs <;> rfl

theorem reparsed_triple (s n p q1 q2 : String) :
    (reparsed ⟨s, n, p, q1⟩).scheme = (reparsed ⟨s, n, p, q2⟩).scheme ∧
    (reparsed ⟨s, n, p, q1⟩).netloc = (reparsed ⟨s, n, p, q2⟩).netloc ∧
    (reparsed ⟨s, n, p, q1⟩).path = (reparsed ⟨s, n, p, q2⟩).path := by
  by_cases h : n ≠ "" ∧ p ≠ "" ∧ startsSlash p = false
  · simp [reparsed, h]
  · simp [reparsed, h]

theorem urljoin_triple_query_irrel (base : Url) (a b c q1 q2 : String) :
    (urljoin base ⟨a, b, c, q1⟩).scheme = (urljoin base ⟨a, b, c, q2⟩).scheme ∧
    (urljoin base ⟨a, b, c, q1⟩).netloc = (urljoin base ⟨a, b, c, q2⟩).netloc ∧
    (urljoin base ⟨a, b, c, q1⟩).path = (urljoin base ⟨a, b, c, q2⟩).path := by
  obtain ⟨bs, bn, bp, bq⟩ := base
  by_cases hb : (⟨bs, bn, bp, bq⟩ : Url) = emptyUrl
  · rw [urljoin, urljoin, if_pos hb, if_pos hb]
    exact reparsed_triple a b c q1 q2
  · by_cases h1 : (⟨a, b, c, q1⟩ : Url) = emptyUrl
    · by_cases h2 : (⟨a, b, c, q2⟩ : Url) = emptyUrl
      · rw [urljoin, urljoin, if_neg hb, if_neg hb, if_pos h1, if_pos h2]
        exact ⟨rfl, rfl, rfl⟩
      · obtain ⟨ha, hbq, hc, -⟩ :
            a = "" ∧ b = "" ∧ c = "" ∧ q1 = "" := by
          simpa [emptyUrl, Url.mk.injEq] using h1
        subst ha; subst hbq; subst hc
        rw [urljoin, urljoin, if_neg hb, if_neg hb, if_pos h1, if_neg h2]
        simp only [if_pos rfl, ite_self]
        split_ifs <;>
          first
            | exact ⟨rfl, rfl, rfl⟩
            | exact reparsed_triple _ _ _ _ _
            | (exact absurd rfl (by assumption))
            | (rename_i hcontra _; exact absurd rfl hcontra)
    · by_cases h2 : (⟨a, b, c, q2⟩ : Url) = emptyUrl
      · obtain ⟨ha, hbq, hc, -⟩ :
            a = "" ∧ b = "" ∧ c = "" ∧ q2 = "" := by
          simpa [emptyUrl, Url.mk.injEq] using h2
        subst ha; subst hbq; subst hc
        rw [urljoin, urljoin, if_neg hb, if_neg hb, if_neg h1, if_pos h2]
        simp only [if_pos rfl, ite_self]
        split_ifs <;>
          first
            | exact ⟨rfl, rfl, rfl⟩
            | exact reparsed_triple _ _ _ _ _
            | (exact absurd rfl (by assumption))
            | (rename_i hcontra _; exact absurd rfl hcontra)
      · rw [urljoin, urljoin, if_neg hb, if_neg hb, if_neg h1, if_neg h2]
        simp only []
        split_ifs <;>
          first
            | exact ⟨rfl, rfl, rfl⟩
            | exact reparsed_triple _ _ _ _ _
            | (exact absurd rfl (by assumption))
            | (rename_i hcontra _; exact absurd rfl hcontra)

theorem mem_of_getLast?_eq (l : List String) (x : String) (h : l.getLast? = some x) :
    x ∈ l := by
  obtain ⟨hne, hEq⟩ := List.mem_getLast?_eq_getLast (by rw [Option.mem_def]; exact h)
  rw [hEq]
  exact List.getLast_mem hne

theorem resolveSegs_no_dots (p : String) (hp : startsSlash p = true)
    (hnd : ∀ s ∈ pySplitSlash p, s ≠ "." ∧ s ≠ "..") :
    resolveSegs (pySplitSlash p) = p := by
  have hfold : ∀ (l : List String) (acc : List String),
      (∀ s ∈ l, s ≠ "." ∧ s ≠ "..") →
      l.foldl (fun acc seg =>
        if seg = ".." then acc.dropLast
        else if seg = "." then acc
        else acc ++ [seg]) acc = acc ++ l := by
    intro l
    induction l with
    | nil => intro acc _; simp
    | cons a rest ih =>
      intro acc hl
      obtain ⟨ha1, ha2⟩ := hl a (List.mem_cons_self a rest)
      simp only [List.foldl_cons, if_neg ha2, if_neg ha1]
      rw [ih (acc ++ [a]) (fun x hx => hl x (List.mem_cons_of_mem a hx))]
      simp
  have hlast : ¬(((pySplitSlash p).getLast? = some "." ) ∨
      (pySplitSlash p).getLast? = some ".." ) := by
    rintro (h | h)
    · have hmem : "." ∈ pySplitSlash p := mem_of_getLast?_eq _ _ h
      exact (hnd _ hmem).1 rfl
    · have hmem : ".." ∈ pySplitSlash p := mem_of_getLast?_eq _ _ h
      exact (hnd _ hmem).2 rfl
  have hpe : p ≠ "" := startsSlash_ne_empty p hp
  simp only [resolveSegs]
  rw [hfold (pySplitSlash p) [] hnd]
  rw [if_neg hlast]
  simp only [List.nil_append]
  rw [joinSlash_pySplitSlash]
  rw [if_neg hpe]

/-- An event item carrying the category labels rock, music, free. -/
def itemTagged : EventItem :=
  { title := some ("T", ⟨"", "", "/e/9", ""⟩), place := some "P",
    time := some "9pm", types := ["rock", "music", "free"] }

/-! ## Claim theorems -/

/-- C1: for every list of parsed events (in whatever order `random.shuffle`
produced), every dedupe store, every quota and every publish outcome, an
event whose canonical url is already present in the store is never selected
for publication and never published: every event the run publishes has a url
outside the loaded store. -/
theorem dedupe_invariant (ok : Event → Bool) (n : Nat) (events : List Event)
    (posts : List String) (e : Event)
    (hp : e ∈ (runMain ok n events posts).published) : e.url ∉ posts :=
  pubLoop_published_fresh ok n events 0 posts e.url
    (List.mem_map_of_mem Event.url hp)

/-- Witness for C1 at a concrete input: a run over `[evA]` with an empty
store publishes `evA`, whose url was indeed not in the store. -/
theorem dedupe_invariant_check :
    evA ∈ (runMain (fun _ => true) 1 [evA] []).published ∧
      evA.url ∉ ([] : List String) :=
  ⟨by decide, dedupe_invariant (fun _ => true) 1 [evA] [] evA (by decide)⟩

/-- C2 counterexample: two events are selected with quota 2 and the first
`post` fails; the code has no try/except, so the raise propagates out of the
loop: the second event is never attempted (nothing is published although its
publish would succeed), nothing is recorded, and `set_cache` is never reached
— refuting that the run continues to the next event and still persists the
store. -/
theorem publish_failure_abort_cex :
    (runMain (fun e => e.url == "https://x/e/2") 2 [evA, evB] []).published = [] ∧
    (runMain (fun e => e.url == "https://x/e/2") 2 [evA, evB] []).posts = [] ∧
    (runMain (fun e => e.url == "https://x/e/2") 2 [evA, evB] []).saved = false := by
  decide

theorem pubLoop_abort_at_first_fail (ok : Event → Bool) (n : Nat) (f : Event)
    (rest : List Event) (hf : ok f = false) :
    ∀ (pre : List Event) (i : Nat) (posts : List String),
      (pubLoop ok n pre i posts).saved = true →
      (pubLoop ok n pre i posts).published.length + i < n →
      f.url ∉ (pubLoop ok n pre i posts).posts →
      pubLoop ok n (pre ++ f :: rest) i posts =
        ⟨(pubLoop ok n pre i posts).published,
          (pubLoop ok n pre i posts).posts, false⟩ := by
  intro pre
  induction pre with
  | nil =>
    intro i posts _ hlen hmem
    simp only [pubLoop, List.length_nil] at hlen
    simp only [pubLoop] at hmem
    have h1 : ¬ n ≤ i := by omega
    rw [List.nil_append]
    simp only [pubLoop]
    rewrite [if_neg h1, if_neg hmem, if_neg (by simp [hf])]
    simp
  | cons e pre ih =>
    intro i posts hsv hlen hmem
    by_cases h1 : n ≤ i
    · rw [pubLoop, if_pos h1] at hlen
      simp at hlen
      omega
    · by_cases h2 : e.url ∈ posts
      · rw [pubLoop, if_neg h1, if_pos h2] at hsv hlen hmem
        have hstep : pubLoop ok n (e :: pre) i posts = pubLoop ok n pre i posts := by
          rw [pubLoop, if_neg h1, if_pos h2]
        rw [List.cons_append, pubLoop, if_neg h1, if_pos h2, hstep]
        exact ih i posts hsv hlen hmem
      · by_cases h3 : ok e = true
        · simp only [pubLoop, if_neg h1, if_neg h2, if_pos h3, List.length_cons,
            List.cons_append] at hsv hlen hmem ⊢
          have hlen2 : (pubLoop ok n pre (i + 1) (posts ++ [e.url])).published.length +
              (i + 1) < n := by omega
          simp only [List.append_eq]
          rw [ih (i + 1) (posts ++ [e.url]) hsv hlen2 hmem]
        · simp [pubLoop, h1, h2, h3] at hsv

theorem pubLoop_not_saved_decomp (ok : Event → Bool) (n : Nat) :
    ∀ (evs : List Event) (i : Nat) (posts : List String),
      (pubLoop ok n evs i posts).saved = false →
      ∃ (pre : List Event) (f : Event) (rest : List Event),
        evs = pre ++ f :: rest ∧ ok f = false ∧
        (pubLoop ok n pre i posts).saved = true ∧
        (pubLoop ok n pre i posts).published.length + i < n ∧
        f.url ∉ (pubLoop ok n pre i posts).posts := by
  intro evs
  induction evs with
  | nil => intro i posts h; simp [pubLoop] at h
  | cons e evs ih =>
    intro i posts h
    by_cases h1 : n ≤ i
    · simp [pubLoop, h1] at h
    · by_cases h2 : e.url ∈ posts
      · rw [pubLoop, if_neg h1, if_pos h2] at h
        obtain ⟨pre, f, rest, hdec, hof, hsv, hlen, hmem⟩ := ih i posts h
        have hstep : pubLoop ok n (e :: pre) i posts = pubLoop ok n pre i posts := by
          rw [pubLoop, if_neg h1, if_pos h2]
        refine ⟨e :: pre, f, rest, ?_, hof, ?_, ?_, ?_⟩
        · rw [hdec, List.cons_append]
        · rw [hstep]; exact hsv
        · rw [hstep]; exact hlen
        · rw [hstep]; exact hmem
      · by_cases h3 : ok e = true
        · simp only [pubLoop, if_neg h1, if_neg h2, if_pos h3] at h
          obtain ⟨pre, f, rest, hdec, hof, hsv, hlen, hmem⟩ :=
            ih (i + 1) (posts ++ [e.url]) h
          refine ⟨e :: pre, f, rest, ?_, hof, ?_, ?_, ?_⟩
          · rw [hdec, List.cons_append]
          · simp only [pubLoop, if_neg h1, if_neg h2, if_pos h3]
            exact hsv
          · simp only [pubLoop, if_neg h1, if_neg h2, if_pos h3, List.length_cons]
            omega
          · simp only [pubLoop, if_neg h1, if_neg h2, if_pos h3]
            exact hmem
        · refine ⟨[], e, evs, rfl, by simpa using h3, ?_, ?_, ?_⟩
          · simp [pubLoop]
          · simp [pubLoop]
            omega
          · simpa [pubLoop] using h2

/-- C2 amended: the failed event's url is indeed never recorded (the final
in-memory store is the loaded store plus exactly the successfully published
urls, in order, and every published event's publish succeeded), but the run
does not continue past a failure: whenever the shuffled event list splits as
`pre ++ f :: rest` with the run over `pre` alone ending cleanly below quota,
`f` not yet recorded (so `f` is attempted) and `f` failing, the whole run
returns exactly the prefix outcome with `saved = false` — `f` is not
recorded, no event of `rest` is attempted (the outcome does not depend on
`rest` at all), and `set_cache` is never reached.  Conversely every unsaved
run decomposes this way around its first attempted failure, and a run whose
publishes all succeed always reaches `set_cache`. -/
theorem publish_failure_semantics (ok : Event → Bool) (n : Nat)
    (events : List Event) (posts : List String) :
    ((runMain ok n events posts).posts =
        posts ++ ((runMain ok n events posts).published).map Event.url ∧
      (∀ e ∈ (runMain ok n events posts).published, ok e = true) ∧
      ((∀ e ∈ events, ok e = true) → (runMain ok n events posts).saved = true)) ∧
    (∀ (pre : List Event) (f : Event) (rest : List Event),
      events = pre ++ f :: rest →
      (runMain ok n pre posts).saved = true →
      (runMain ok n pre posts).published.length < n →
      f.url ∉ (runMain ok n pre posts).posts →
      ok f = false →
      runMain ok n events posts =
        ⟨(runMain ok n pre posts).published,
          (runMain ok n pre posts).posts, false⟩) ∧
    ((runMain ok n events posts).saved = false →
      ∃ (pre : List Event) (f : Event) (rest : List Event),
        events = pre ++ f :: rest ∧ ok f = false ∧
        (runMain ok n pre posts).saved = true ∧
        (runMain ok n pre posts).published.length < n ∧
        f.url ∉ (runMain ok n pre posts).posts) := by
  refine ⟨⟨pubLoop_posts_eq ok n events 0 posts,
    fun e he => pubLoop_published_ok ok n events 0 posts e he,
    fun hall => pubLoop_saved_of_all_ok ok n events 0 posts hall⟩, ?_, ?_⟩
  · intro pre f rest hdec hsv hlen hmem hof
    subst hdec
    exact pubLoop_abort_at_first_fail ok n f rest hof pre 0 posts hsv
      (by simpa [runMain] using hlen) hmem
  · intro hns
    obtain ⟨pre, f, rest, hdec, hof, hsv, hlen, hmem⟩ :=
      pubLoop_not_saved_decomp ok n events 0 posts hns
    exact ⟨pre, f, rest, hdec, hof, hsv, by simpa [runMain] using hlen, hmem⟩

/-- C3 counterexample: with the same unseen url occurring twice in the parsed
list and quota 2, only one event is published, while the claimed value
`min(quota, number of events whose url is not in the store)` is 2: the loop
records the url after the first publish and then skips the duplicate. -/
theorem quota_equality_cex :
    ¬ ((runMain (fun _ => true) 2 [evA, evA] []).published.length =
      min 2 (([evA, evA].filter
        (fun e => decide (e.url ∉ ([] : List String)))).length)) := by
  decide

/-- C3 amended: the number of published events is at most the quota for every
publish outcome, and — when every publish succeeds — equals the minimum of
the quota and the number of DISTINCT urls among the events not already in the
store (duplicated parsed urls are published once); `distinctUnseen` is that
count. -/
theorem quota_bound_distinct_unseen (n : Nat) (events : List Event)
    (posts : List String) :
    (∀ ok : Event → Bool, (runMain ok n events posts).published.length ≤ n) ∧
    (runMain (fun _ => true) n events posts).published.length =
      min n (distinctUnseen events posts) ∧
    distinctUnseen events posts =
      ((events.map Event.url).filter (fun u => decide (u ∉ posts))).toFinset.card := by
  refine ⟨fun ok => ?_, ?_, distinctUnseen_card events posts⟩
  · have h := pubLoop_length_le ok n events 0 posts
    simp only [runMain]
    omega
  · have h := pubLoop_true_length n events 0 posts
    simpa [runMain] using h

/-- C4 counterexample: a block with 5 items whose third lacks its time field
does not yield 4 parsed events — the attribute access in `make_event` raises
and the whole parse aborts with an error (and no skipped-item count exists
anywhere in the code). -/
theorem malformed_item_cex :
    get_events base0 docFive 0 = Except.error ParseErr.missingField := rfl

theorem make_event_malformed (base : Url) (el : EventItem) (date : String)
    (hmal : el.title = none ∨ el.place = none ∨ el.time = none) :
    make_event base el date = Except.error ParseErr.missingField := by
  obtain ⟨t, p, tm, ty⟩ := el
  rcases t with _ | tpair <;> rcases p with _ | pv <;> rcases tm with _ | tv <;>
    simp_all [make_event]

theorem mapExcept_error_of_mem (f : α → Except ε β) (l : List α) (x : α)
    (hx : x ∈ l) (e : ε) (hfx : f x = .error e) :
    ∃ er, mapExcept f l = Except.error er := by
  induction l with
  | nil => cases hx
  | cons a as ih =>
    rcases List.mem_cons.mp hx with h | h
    · subst h
      exact ⟨e, by simp [mapExcept, hfx]⟩
    · cases hfa : f a with
      | error e2 => exact ⟨e2, by simp [mapExcept, hfa]⟩
      | ok b =>
        obtain ⟨er, her⟩ := ih h
        exact ⟨er, by simp [mapExcept, hfa, her]⟩

/-- C4 amended: a date block containing an item that lacks a required
sub-element (no title link, no location, or no time) makes the whole parse
raise: `get_events` returns an error, no events at all are produced from the
block, and no count of skipped items is reported. -/
theorem malformed_item_aborts_parse (base : Url) (doc : Doc) (pick : Nat)
    (b : DateBlock) (el : EventItem)
    (hb : doc.blocks[pick % doc.blocks.length]? = some b)
    (hel : el ∈ b.items)
    (hmal : el.title = none ∨ el.place = none ∨ el.time = none) :
    ∃ er, get_events base doc pick = Except.error er := by
  cases hh : b.heading with
  | none =>
    refine ⟨ParseErr.noHeading, ?_⟩
    simp [get_events, hb, hh]
  | some htext =>
    obtain ⟨er, her⟩ := mapExcept_error_of_mem
      (fun el2 => make_event base el2 (pyStrip htext)) b.items el hel
      ParseErr.missingField (make_event_malformed base el (pyStrip htext) hmal)
    refine ⟨er, ?_⟩
    simp [get_events, hb, hh, her]

/-- Witness for C4 amended at the concrete five-item block. -/
theorem malformed_item_aborts_check :
    ∃ er, get_events base0 docFive 0 = Except.error er :=
  malformed_item_aborts_parse base0 docFive 0 blockFive itemNoTime rfl
    (by decide) (Or.inr (Or.inr rfl))

/-- C5 counterexample: on a document with no date block, `get_events` does
not return an empty sequence — `random.choice` of the empty block list raises
IndexError. -/
theorem no_blocks_cex :
    get_events base0 emptyDoc 0 = Except.error ParseErr.noBlocks := rfl

/-- C5 amended: a document with no date blocks makes `get_events` raise
(IndexError from `random.choice([])`) rather than return an empty sequence;
the orchestrator consequently publishes nothing (the run dies before the
publish loop). -/
theorem no_blocks_raises (base : Url) (doc : Doc) (pick : Nat)
    (hd : doc.blocks = []) :
    get_events base doc pick = Except.error ParseErr.noBlocks ∧
    ∀ (file : CacheFile) (perm : List Event → List Event) (ok : Event → Bool)
      (n : Nat),
      (runAll file doc pick perm ok base n).publishedEvents = [] := by
  have hge : get_events base doc pick = Except.error ParseErr.noBlocks := by
    simp [get_events, hd]
  refine ⟨hge, fun file perm ok n => ?_⟩
  cases hgc : get_cache file with
  | error e => simp [runAll, hgc, RunOutcome.publishedEvents]
  | ok c => simp [runAll, hgc, hge, RunOutcome.publishedEvents]

/-- Witness for C5 amended at the concrete empty document. -/
theorem no_blocks_raises_check :
    get_events base0 emptyDoc 7 = Except.error ParseErr.noBlocks ∧
    ∀ (file : CacheFile) (perm : List Event → List Event) (ok : Event → Bool)
      (n : Nat),
      (runAll file emptyDoc 7 perm ok base0 n).publishedEvents = [] :=
  no_blocks_raises base0 emptyDoc 7 rfl

/-- C6 counterexample: an item whose relative link is the query-only
reference `?id=5`, resolved against base `https://x`, yields an event url
that still carries the query string — `urljoin(full, urlparse(full).path)`
with an empty path returns the base unchanged (Python returns `base` for a
falsy second argument), so the query is not stripped and the url is not
scheme/host/path only. -/
theorem query_not_stripped_cex :
    (make_event base0 itemQueryOnly "d").toOption.map Event.url =
      some "https://x?id=5" ∧
    "https://x?id=5" ≠ urlunparse ⟨"https", "x", "", ""⟩ := by
  exact ⟨rfl, by decide⟩

theorem cleanUrl_spec (u : Url) (hp : u.path ≠ "") :
    cleanUrl u = reparsed ⟨u.scheme, u.netloc, cleanPath u.path, ""⟩ := by
  obtain ⟨s, n, p, q⟩ := u
  exact cleanUrl_eval p hp s n q

/-- C6 amended: whenever the resolved absolute URL has a non-empty path (the
case for every real event link), the event url is the render of the resolved
URL with its query dropped: same scheme, same netloc, dot-normalized path
(the path itself verbatim when it is absolute and has no dot segments), empty
query — and consequently links differing only in their query string yield the
same event url.  When the resolved path is empty the query survives, as the
counterexample shows. -/
theorem reparsed_query_empty (s n p : String) : (reparsed ⟨s, n, p, ""⟩).query = "" := by
  simp only [reparsed]
  split_ifs <;> rfl

theorem reparsed_scheme_eq (s n p q : String) : (reparsed ⟨s, n, p, q⟩).scheme = s := by
  simp only [reparsed]
  split_ifs <;> rfl

theorem reparsed_netloc_eq (s n p q : String) : (reparsed ⟨s, n, p, q⟩).netloc = n := by
  simp only [reparsed]
  split_ifs <;> rfl

theorem reparsed_path_abs (s n p q : String) (h : startsSlash p = true) :
    (reparsed ⟨s, n, p, q⟩).path = p := by
  simp only [reparsed]
  split_ifs with hc
  · exact absurd hc (by simp [h])
  · rfl

theorem url_canonicalization_amended (base : Url) (el : EventItem)
    (date : String) (t : String) (href : Url) (pl tm : String)
    (ht : el.title = some (t, href)) (hpl : el.place = some pl)
    (htm : el.time = some tm)
    (hpath : (urljoin base href).path ≠ "") :
    ∃ ev : Event, make_event base el date = Except.ok ev ∧
      ev.url = urlunparse (reparsed ⟨(urljoin base href).scheme,
        (urljoin base href).netloc, cleanPath (urljoin base href).path, ""⟩) ∧
      (cleanUrl (urljoin base href)).query = "" ∧
      (cleanUrl (urljoin base href)).scheme = (urljoin base href).scheme ∧
      (cleanUrl (urljoin base href)).netloc = (urljoin base href).netloc ∧
      (startsSlash (urljoin base href).path = true →
        (∀ s ∈ pySplitSlash (urljoin base href).path, s ≠ "." ∧ s ≠ "..") →
        (cleanUrl (urljoin base href)).path = (urljoin base href).path) ∧
      (∀ q : String,
        ∃ ev2 : Event,
          make_event base
              { el with title := some (t, { href with query := q }) } date =
            Except.ok ev2 ∧ ev2.url = ev.url) := by
  obtain ⟨elt, elp, eltm, elty⟩ := el
  change elt = some (t, href) at ht
  change elp = some pl at hpl
  change eltm = some tm at htm
  subst ht; subst hpl; subst htm
  obtain ⟨ha, hb2, hc2, hq⟩ := href
  have hclean := cleanUrl_spec (urljoin base ⟨ha, hb2, hc2, hq⟩) hpath
  have hmk : make_event base ⟨some (t, ⟨ha, hb2, hc2, hq⟩), some pl, some tm, elty⟩
      date =
      Except.ok
        { title := pyStrip t,
          url := urlunparse (cleanUrl (urljoin base ⟨ha, hb2, hc2, hq⟩)),
          location := some (pyStrip pl), date := some date,
          time := some (pyStrip tm),
          tags := (elty.map (fun s => pyLower (pyStrip s))).filter
            (fun tag => tag ≠ "music") } := rfl
  rewrite [hclean] at hmk
  refine ⟨_, hmk, rfl, ?_, ?_, ?_, ?_, ?_⟩
  · rewrite [hclean]
    exact reparsed_query_empty _ _ _
  · rewrite [hclean]
    exact reparsed_scheme_eq _ _ _ _
  · rewrite [hclean]
    exact reparsed_netloc_eq _ _ _ _
  · intro hss hnd
    rewrite [hclean]
    have hcp : cleanPath (urljoin base ⟨ha, hb2, hc2, hq⟩).path =
        (urljoin base ⟨ha, hb2, hc2, hq⟩).path := by
      rw [cleanPath, if_pos hss]
      exact resolveSegs_no_dots _ hss hnd
    rewrite [hcp]
    exact reparsed_path_abs _ _ _ _ hss
  · intro q
    obtain ⟨hs, hn, hpp⟩ := urljoin_triple_query_irrel base ha hb2 hc2 q hq
    have hpath2 : (urljoin base ⟨ha, hb2, hc2, q⟩).path ≠ "" := by
      rw [hpp]; exact hpath
    have hclean2 := cleanUrl_spec (urljoin base ⟨ha, hb2, hc2, q⟩) hpath2
    have hmk2 : make_event base
        ⟨some (t, ⟨ha, hb2, hc2, q⟩), some pl, some tm, elty⟩ date =
        Except.ok
          { title := pyStrip t,
            url := urlunparse (cleanUrl (urljoin base ⟨ha, hb2, hc2, q⟩)),
            location := some (pyStrip pl), date := some date,
            time := some (pyStrip tm),
            tags := (elty.map (fun s => pyLower (pyStrip s))).filter
              (fun tag => tag ≠ "music") } := rfl
    rewrite [hclean2, hs, hn, hpp] at hmk2
    exact ⟨_, hmk2, rfl⟩

/-- Witness for C6 amended at base `https://x` and link `/e/1?d=2026`: the
event url is `https://x/e/1`, the query is stripped, and any other query on
the same link gives the same url. -/
theorem url_canonicalization_check :
    ∃ ev : Event, make_event base0 itemOne "March 3" = Except.ok ev ∧
      ev.url = urlunparse (reparsed ⟨(urljoin base0 ⟨"", "", "/e/1", "d=2026"⟩).scheme,
        (urljoin base0 ⟨"", "", "/e/1", "d=2026"⟩).netloc,
        cleanPath (urljoin base0 ⟨"", "", "/e/1", "d=2026"⟩).path, ""⟩) ∧
      (cleanUrl (urljoin base0 ⟨"", "", "/e/1", "d=2026"⟩)).query = "" ∧
      (cleanUrl (urljoin base0 ⟨"", "", "/e/1", "d=2026"⟩)).scheme =
        (urljoin base0 ⟨"", "", "/e/1", "d=2026"⟩).scheme ∧
      (cleanUrl (urljoin base0 ⟨"", "", "/e/1", "d=2026"⟩)).netloc =
        (urljoin base0 ⟨"", "", "/e/1", "d=2026"⟩).netloc ∧
      (startsSlash (urljoin base0 ⟨"", "", "/e/1", "d=2026"⟩).path = true →
        (∀ s ∈ pySplitSlash (urljoin base0 ⟨"", "", "/e/1", "d=2026"⟩).path,
          s ≠ "." ∧ s ≠ "..") →
        (cleanUrl (urljoin base0 ⟨"", "", "/e/1", "d=2026"⟩)).path =
          (urljoin base0 ⟨"", "", "/e/1", "d=2026"⟩).path) ∧
      (∀ q : String,
        ∃ ev2 : Event,
          make_event base0
              { itemOne with title := some ("T1", { (⟨"", "", "/e/1", "d=2026"⟩ : Url) with query := q }) } "March 3" =
            Except.ok ev2 ∧ ev2.url = ev.url) :=
  url_canonicalization_amended base0 itemOne "March 3" "T1" ⟨"", "", "/e/1", "d=2026"⟩
    "P1" "8pm" rfl rfl rfl (by decide)

/-- C7: the tags of a parsed event are the item's category labels trimmed and
lower-cased with every literal `music` dropped and everything else kept in
order; in particular labels rock, music, free yield tags rock, free. -/
theorem tag_filtering_correct (base : Url) (el : EventItem) (date : String)
    (t : String) (href : Url) (pl tm : String)
    (ht : el.title = some (t, href)) (hpl : el.place = some pl)
    (htm : el.time = some tm) :
    ∃ ev : Event, make_event base el date = Except.ok ev ∧
      ev.tags = (el.types.map (fun s => pyLower (pyStrip s))).filter
        (fun tag => tag ≠ "music") ∧
      "music" ∉ ev.tags ∧
      (el.types = ["rock", "music", "free"] → ev.tags = ["rock", "free"]) := by
  obtain ⟨elt, elp, eltm, elty⟩ := el
  change elt = some (t, href) at ht
  change elp = some pl at hpl
  change eltm = some tm at htm
  subst ht; subst hpl; subst htm
  have hmk : make_event base ⟨some (t, href), some pl, some tm, elty⟩ date =
      Except.ok
        { title := pyStrip t,
          url := urlunparse (cleanUrl (urljoin base href)),
          location := some (pyStrip pl), date := some date,
          time := some (pyStrip tm),
          tags := (elty.map (fun s => pyLower (pyStrip s))).filter
            (fun tag => tag ≠ "music") } := rfl
  refine ⟨_, hmk, rfl, ?_, ?_⟩
  · intro hmem
    simp only [List.mem_filter, decide_eq_true_eq] at hmem
    exact hmem.2 rfl
  · intro hty
    change elty = _ at hty
    subst hty
    rfl

/-- Witness for C7 at a concrete item carrying labels rock, music, free. -/
theorem tag_filtering_check :
    ∃ ev : Event, make_event base0 itemTagged "d" = Except.ok ev ∧
      ev.tags = (itemTagged.types.map (fun s => pyLower (pyStrip s))).filter
        (fun tag => tag ≠ "music") ∧
      "music" ∉ ev.tags ∧
      (itemTagged.types = ["rock", "music", "free"] → ev.tags = ["rock", "free"]) :=
  tag_filtering_correct base0 itemTagged "d" "T" ⟨"", "", "/e/9", ""⟩ "P" "9pm"
    rfl rfl rfl

/-- C8: loading the store when no state file exists yields the empty post
list (FileNotFoundError is caught); a file whose JSON fails to decode raises
out of `get_cache` (only FileNotFoundError is caught), as does a decoded
object whose keys are not exactly `posts`; a well-shaped object loads its
`posts` value; and any load failure ends the run before any publish: the run
is `fatalLoad` and publishes nothing. -/
theorem cache_load_semantics :
    get_cache CacheFile.missing = Except.ok ⟨Json.arr []⟩ ∧
    get_cache CacheFile.badJson = Except.error LoadErr.jsonDecodeError ∧
    (∀ v : Json, get_cache (CacheFile.parsed (Json.obj [("posts", v)])) =
      Except.ok ⟨v⟩) ∧
    (∀ (file : CacheFile) (doc : Doc) (pick : Nat)
        (perm : List Event → List Event) (ok : Event → Bool) (base : Url)
        (n : Nat),
      (∃ er, get_cache file = Except.error er) →
        runAll file doc pick perm ok base n = RunOutcome.fatalLoad ∧
        (runAll file doc pick perm ok base n).publishedEvents = []) := by
  refine ⟨rfl, rfl, fun v => rfl, ?_⟩
  intro file doc pick perm ok base n her
  obtain ⟨er, her⟩ := her
  constructor
  · simp [runAll, her]
  · simp [runAll, her, RunOutcome.publishedEvents]

/-- C9 counterexample: on a document with two date blocks, two runs of
`get_events` whose random draws pick different blocks return different url
sets, refuting seed-independence of the parsed identity set. -/
theorem seed_dependent_parse_cex :
    (get_events base0 docTwoBlocks 0).toOption.map (fun evs => evs.map Event.url) =
      some ["https://x/e/1"] ∧
    (get_events base0 docTwoBlocks 1).toOption.map (fun evs => evs.map Event.url) =
      some ["https://x/e/2"] ∧
    (["https://x/e/1"] : List String) ≠ ["https://x/e/2"] :=
  ⟨rfl, rfl, by decide⟩

/-- C9 amended: parsing is a pure function of the document and the random
block draw: two invocations whose draws select the same block (always the
case when the document has exactly one date block) return identical results
— but with several blocks, different seeds may pick different blocks and
yield different url sets, as the counterexample shows. -/
theorem parse_deterministic_per_block (base : Url) (doc : Doc) (p1 p2 : Nat) :
    (p1 % doc.blocks.length = p2 % doc.blocks.length →
      get_events base doc p1 = get_events base doc p2) ∧
    (doc.blocks.length = 1 → get_events base doc p1 = get_events base doc p2) := by
  constructor
  · intro h
    simp only [get_events, h]
  · intro h
    have hm : p1 % doc.blocks.length = p2 % doc.blocks.length := by
      rw [h, Nat.mod_one, Nat.mod_one]
    simp only [get_events, hm]

/-- C10: within one run each canonical url is published and recorded at most
once, whatever the event list, store, quota and publish outcomes: the
published urls are pairwise distinct, the in-memory store ends as the loaded
store plus exactly those urls, and (all publishes succeeding) the number of
published events is the minimum of the quota and the number of distinct
unseen urls — later copies of an already-recorded url are skipped by the
membership check without consuming quota. -/
theorem url_recorded_at_most_once (ok : Event → Bool) (n : Nat)
    (events : List Event) (posts : List String) :
    (((runMain ok n events posts).published).map Event.url).Nodup ∧
    (runMain ok n events posts).posts =
      posts ++ ((runMain ok n events posts).published).map Event.url ∧
    (runMain (fun _ => true) n events posts).published.length =
      min n (distinctUnseen events posts) := by
  refine ⟨pubLoop_nodup ok n events 0 posts, pubLoop_posts_eq ok n events 0 posts, ?_⟩
  have h := pubLoop_true_length n events 0 posts
  simpa [runMain] using h
